import Mathlib

/-!
Verification of the SnapCut expansion engine (the global key listener).

The JavaScript module keeps mutable globals `buffer`, `snippetMap`,
`shortcutList`, `expanding`, `active`; its keydown handler, `checkBufferMatch`,
`updateSnippets`, `startKeyListener` and `runExpansion` are embedded below as
pure functions over an explicit `EngineState` (and, for the expansion executor,
an explicit clipboard value plus an environment of failure flags for the
fallible external calls).  JavaScript strings are modelled as `List Char`.
-/

namespace SnapCut

/-- JavaScript strings, modelled as lists of characters. -/
abbrev JSString := List Char

/-- `String.prototype.toLowerCase` (the buffer and all shortcuts are ASCII). -/
def toLowerStr (s : JSString) : JSString := s.map Char.toLower

/-- `s.endsWith(t)` of JavaScript: the last `t.length` characters of `s`
equal `t` (false when `t` is longer than `s`). -/
def endsWith (s t : JSString) : Bool := s.drop (s.length - t.length) == t

/-- A snippet record `{ id, shortcut, body }` as supplied by the storage layer. -/
structure Snippet where
  id : Nat
  shortcut : JSString
  body : JSString
deriving DecidableEq

/-- The `KEYCODE_MAP` object literal of the source: uiohook keycode to
character entries, in source order (26 letters, 10 digits, 10 symbols).
The entry for keycode 40 is the apostrophe character. -/
def KEYCODE_MAP : List (Nat × Char) :=
  [(30, 'a'), (48, 'b'), (46, 'c'), (32, 'd'), (18, 'e'), (33, 'f'), (34, 'g'), (35, 'h'),
   (23, 'i'), (36, 'j'), (37, 'k'), (38, 'l'), (50, 'm'), (49, 'n'), (24, 'o'), (25, 'p'),
   (16, 'q'), (19, 'r'), (31, 's'), (20, 't'), (22, 'u'), (47, 'v'), (17, 'w'), (45, 'x'),
   (21, 'y'), (44, 'z'),
   (11, '0'), (2, '1'), (3, '2'), (4, '3'), (5, '4'), (6, '5'), (7, '6'), (8, '7'),
   (9, '8'), (10, '9'),
   (12, '-'), (13, '='), (26, '['), (27, ']'), (43, '\\'), (39, ';'), (40, Char.ofNat 39),
   (51, ','), (52, '.'), (53, '/')]

/-- The property access `KEYCODE_MAP[keycode]` (`undefined` is `none`). -/
def keycodeChar (keycode : Nat) : Option Char :=
  (KEYCODE_MAP.find? (fun p => p.1 == keycode)).map (fun p => p.2)

/-- The characters the keycode table can produce. -/
def printableChars : List Char := KEYCODE_MAP.map (fun p => p.2)

/-- `const BACKSPACE = 14`. -/
def BACKSPACE : Nat := 14

/-- The inline list `[57, 28, 15, 1]` of the handler: space, enter, tab, escape. -/
def BOUNDARY_CODES : List Nat := [57, 28, 15, 1]

/-- One JS object-property assignment `snippetMap[key] = s`: overwriting an
existing key keeps its position (last write wins), a new key is appended
(JS string-key insertion order). -/
def assignKey (m : List (JSString × Snippet)) (k : JSString) (s : Snippet) :
    List (JSString × Snippet) :=
  if m.any (fun p => p.1 == k) then
    m.map (fun p => if p.1 == k then (p.1, s) else p)
  else
    m ++ [(k, s)]

/-- The loop `for (const s of snippets) snippetMap[s.shortcut.toLowerCase()] = s`
starting from the empty object. -/
def buildSnippetMap (snippets : List Snippet) : List (JSString × Snippet) :=
  snippets.foldl (fun m s => assignKey m (toLowerStr s.shortcut) s) []

/-- The property access `snippetMap[key]`. -/
def lookupKey (m : List (JSString × Snippet)) (k : JSString) : Option Snippet :=
  (m.find? (fun p => p.1 == k)).map (fun p => p.2)

/-- Stable insertion of a key into a list sorted by descending length;
the key goes in front of the first entry that is not longer than it. -/
def insertLenDesc (k : JSString) : List JSString → List JSString
  | [] => [k]
  | x :: xs => if x.length ≤ k.length then k :: x :: xs else x :: insertLenDesc k xs

/-- `Object.keys(snippetMap).sort((a, b) => b.length - a.length)`: a stable
sort by descending length (ECMAScript `Array.prototype.sort` is stable). -/
def sortLenDesc (l : List JSString) : List JSString :=
  l.foldr insertLenDesc []

/-- The `shortcutList` global as rebuilt by `updateSnippets` (and by the
first-activation path of `startKeyListener`) from a snippet collection. -/
def shortcutListOf (snippets : List Snippet) : List JSString :=
  sortLenDesc ((buildSnippetMap snippets).map (fun p => p.1))

/-- The object `{ snippet: snippetMap[key], matchLen: key.length }` returned by
`checkBufferMatch`; `snippet` is an `Option` because a JS property read can in
principle yield `undefined`. -/
structure MatchInfo where
  snippet : Option Snippet
  matchLen : Nat
deriving DecidableEq

/-- The loop of `checkBufferMatch`: first key of `shortcutList` (in order) that
the lowercased buffer ends with. -/
def firstSuffix (lower : JSString) : List JSString → Option JSString
  | [] => none
  | k :: rest => if endsWith lower k then some k else firstSuffix lower rest

/-- `checkBufferMatch()`: lowercase the buffer, walk `shortcutList` in order and
return the snippet and length of the first key that is a suffix. -/
def checkBufferMatch (buffer : JSString) (shortcutList : List JSString)
    (snippetMap : List (JSString × Snippet)) : Option MatchInfo :=
  match firstSuffix (toLowerStr buffer) shortcutList with
  | some k => some { snippet := lookupKey snippetMap k, matchLen := k.length }
  | none => none

/-- The module-level mutable state of the key listener. -/
structure EngineState where
  buffer : JSString
  snippetMap : List (JSString × Snippet)
  shortcutList : List JSString
  expanding : Bool
  active : Bool
deriving DecidableEq

/-- `buffer += char; if (buffer.length > 50) buffer = buffer.slice(-30);`
(`slice(-30)` keeps the last 30 characters). -/
def truncAppend (buffer : JSString) (c : Char) : JSString :=
  if (buffer ++ [c]).length > 50 then (buffer ++ [c]).drop ((buffer ++ [c]).length - 30)
  else buffer ++ [c]

/-- The keydown handler registered on the uiohook: returns the successor state
together with the match (if any) handed to the asynchronous expansion dispatch.
On a match the handler sets `expanding = true` and clears the buffer before it
returns, so the returned state is what every later key event observes. -/
def keydown (st : EngineState) (keycode : Nat) : EngineState × Option MatchInfo :=
  if st.expanding then (st, none)
  else if BACKSPACE == keycode then ({ st with buffer := st.buffer.dropLast }, none)
  else
    match keycodeChar keycode with
    | none =>
      if BOUNDARY_CODES.contains keycode then ({ st with buffer := [] }, none)
      else (st, none)
    | some c =>
      match checkBufferMatch (truncAppend st.buffer c) st.shortcutList st.snippetMap with
      | some m => ({ st with buffer := [], expanding := true }, some m)
      | none => ({ st with buffer := truncAppend st.buffer c }, none)

/-- A sequence of key events fed through the handler (events are serialized). -/
def processKeys (st : EngineState) (keycodes : List Nat) : EngineState :=
  keycodes.foldl (fun s k => (keydown s k).1) st

/-- `updateSnippets(snippets)`: rebuild `snippetMap` and `shortcutList`,
touching nothing else. -/
def updateSnippets (st : EngineState) (snippets : List Snippet) : EngineState :=
  let m := buildSnippetMap snippets
  { st with snippetMap := m, shortcutList := sortLenDesc (m.map (fun p => p.1)) }

/-- `startKeyListener(snippets)`: if already active it behaves as
`updateSnippets` and returns; otherwise it rebuilds the index, clears the
buffer and, when hook registration succeeds (`hookOk`), becomes active. -/
def startKeyListener (st : EngineState) (snippets : List Snippet) (hookOk : Bool) :
    EngineState :=
  if st.active then updateSnippets st snippets
  else
    let m := buildSnippetMap snippets
    let st1 := { st with
      snippetMap := m,
      shortcutList := sortLenDesc (m.map (fun p => p.1)),
      buffer := [] }
    if hookOk then { st1 with active := true } else st1

/-- An Electron `NativeImage`: `isEmpty()` is true when it has no bytes. -/
structure NativeImg where
  bytes : List Nat
deriving DecidableEq

/-- `img.isEmpty()`. -/
def NativeImg.isEmptyImg (i : NativeImg) : Bool := i.bytes.isEmpty

/-- The system clipboard: `readImage()` yields `img`, `readText()` yields
`text`. -/
structure Clipboard where
  img : NativeImg
  text : JSString
deriving DecidableEq

/-- `clipboard.writeText(t)`: the clipboard then holds only that text. -/
def clipWriteText (c : Clipboard) (t : JSString) : Clipboard :=
  { img := ⟨[]⟩, text := t }

/-- `clipboard.writeImage(i)`: the clipboard then holds only that image. -/
def clipWriteImage (c : Clipboard) (i : NativeImg) : Clipboard :=
  { img := i, text := [] }

/-- `clipboard.clear()`. -/
def clipClear (c : Clipboard) : Clipboard :=
  { img := ⟨[]⟩, text := [] }

/-- Failure environment for one expansion: which of the fallible external
calls of `runExpansion` throw (audio, clipboard read, the unguarded clipboard
write of the expansion text, the osascript call, the restoring clipboard
write). -/
structure ExpEnv where
  audioFails : Bool
  readFails : Bool
  writeFails : Bool
  execFails : Bool
  restoreFails : Bool
deriving DecidableEq

/-- Outcome of one full expansion run: final clipboard, final value of the
`expanding` flag once all scheduled callbacks have run, and whether an
exception propagated out of `runExpansion` itself. -/
structure ExpResult where
  clip : Clipboard
  expanding : Bool
  threw : Bool
deriving DecidableEq

/-- The restore block inside the `setTimeout` callback of `runExpansion`:
write back the saved image if one was captured, else the saved text if one was
captured, else clear the clipboard. -/
def restoreClipboard (savedImage : Option NativeImg) (savedText : Option JSString)
    (clip : Clipboard) : Clipboard :=
  match savedImage with
  | some i => clipWriteImage clip i
  | none =>
    match savedText with
    | some t => clipWriteText clip t
    | none => clipClear clip

/-- `runExpansion(deleteCount, expandedText)`, run to quiescence.
`playPopSound()` is fire-and-forget with its own internal catch, so
`audioFails` has no effect on the result.  The clipboard snapshot is taken
inside a try/catch (`readFails` leaves nothing to restore).  The subsequent
`clipboard.writeText(expandedText)` is NOT inside any try/catch: when it
throws, `execFile` is never reached, the exception propagates to the caller
and `expanding` keeps its entry value.  Otherwise the osascript completion
callback always fires (with an error iff `execFails`), the `setTimeout`
restore path runs (its own try/catch swallows `restoreFails`) and the
`expanding` flag ends up false on every one of those paths. -/
def runExpansion (env : ExpEnv) (clip : Clipboard) (deleteCount : Nat)
    (expandedText : JSString) (expanding0 : Bool) : ExpResult :=
  let saved : Option NativeImg × Option JSString :=
    if env.readFails then (none, none)
    else if !clip.img.isEmptyImg then (some clip.img, none)
    else (none, some clip.text)
  if env.writeFails then
    { clip := clip, expanding := expanding0, threw := true }
  else
    let clip1 := clipWriteText clip expandedText
    let clip2 := if env.restoreFails then clip1 else restoreClipboard saved.1 saved.2 clip1
    { clip := clip2, expanding := false, threw := false }

/-- A row of the `snippets` table. -/
structure DbRow where
  id : Nat
  shortcut : JSString
  body : JSString
  usage_count : Nat
deriving DecidableEq

/-- A row of the `expansion_log` table. -/
structure LogRow where
  snippet_id : Nat
  shortcut : JSString
  chars_expanded : Nat
  chars_shortcut : Nat
deriving DecidableEq

/-- The two tables touched by the usage-accounting collaborator. -/
structure Db where
  snippets : List DbRow
  expansion_log : List LogRow
deriving DecidableEq

/-- `incrementUsage(id)` of the database module: bump `usage_count` of every
row whose id matches, re-select the row, and if found append one
`expansion_log` record `(snippet_id, shortcut, chars_expanded, chars_shortcut)
= (id, s.shortcut, s.body.length, s.shortcut.length)`. -/
def incrementUsage (db : Db) (i : Nat) : Db :=
  let snips := db.snippets.map
    (fun r => if r.id == i then { r with usage_count := r.usage_count + 1 } else r)
  match snips.find? (fun r => r.id == i) with
  | some s =>
    { snippets := snips,
      expansion_log := db.expansion_log ++
        [{ snippet_id := i, shortcut := s.shortcut,
           chars_expanded := s.body.length, chars_shortcut := s.shortcut.length }] }
  | none => { snippets := snips, expansion_log := db.expansion_log }

/-- Outcome of the whole asynchronous dispatch of one match. -/
structure DispatchResult where
  clip : Clipboard
  db : Db
  expanding : Bool
  threw : Bool
deriving DecidableEq

/-- The `setImmediate` callback of the keydown match branch: `runExpansion`,
then the usage report wrapped in try/catch (`reportFails` models both a
failing `require` of the database module and a throwing `incrementUsage`;
either way the catch swallows it).  When `runExpansion` itself throws, the
report is never reached and the exception escapes the callback. -/
def dispatchExpansion (env : ExpEnv) (reportFails : Bool) (clip : Clipboard)
    (db : Db) (deleteCount : Nat) (s : Snippet) : DispatchResult :=
  let r := runExpansion env clip deleteCount s.body true
  if r.threw then { clip := r.clip, db := db, expanding := r.expanding, threw := true }
  else
    let db1 := if reportFails then db else incrementUsage db s.id
    { clip := r.clip, db := db1, expanding := r.expanding, threw := false }

/-! Helper lemmas. -/

/-- The embedded `endsWith` agrees with the list suffix relation. -/
theorem endsWith_iff {s t : JSString} : endsWith s t = true ↔ t <:+ s := by
  constructor
  · intro h
    have h' : s.drop (s.length - t.length) = t := by
      simpa [endsWith] using h
    rw [← h']
    exact List.drop_suffix _ _
  · rintro ⟨u, rfl⟩
    have hl : (u ++ t).length - t.length = u.length := by simp
    simp [endsWith, hl, List.drop_left]

theorem mem_insertLenDesc {y k : JSString} {l : List JSString} :
    y ∈ insertLenDesc k l ↔ y = k ∨ y ∈ l := by
  induction l with
  | nil => simp [insertLenDesc]
  | cons x xs ih =>
    by_cases h : x.length ≤ k.length
    · simp [insertLenDesc, h]
    · simp only [insertLenDesc, if_neg h, List.mem_cons, ih]
      tauto

theorem pairwise_insertLenDesc {k : JSString} {l : List JSString}
    (h : l.Pairwise (fun a b => b.length ≤ a.length)) :
    (insertLenDesc k l).Pairwise (fun a b => b.length ≤ a.length) := by
  induction l with
  | nil => simp [insertLenDesc]
  | cons x xs ih =>
    rcases List.pairwise_cons.mp h with ⟨hx, hxs⟩
    by_cases hcmp : x.length ≤ k.length
    · rw [insertLenDesc, if_pos hcmp]
      refine List.pairwise_cons.mpr ⟨?_, h⟩
      intro y hy
      rcases List.mem_cons.mp hy with rfl | hy'
      · exact hcmp
      · exact le_trans (hx y hy') hcmp
    · rw [insertLenDesc, if_neg hcmp]
      refine List.pairwise_cons.mpr ⟨?_, ih hxs⟩
      intro y hy
      rcases mem_insertLenDesc.mp hy with rfl | hy'
      · exact le_of_lt (not_le.mp hcmp)
      · exact hx y hy'

theorem sortLenDesc_pairwise (l : List JSString) :
    (sortLenDesc l).Pairwise (fun a b => b.length ≤ a.length) := by
  induction l with
  | nil => simp [sortLenDesc]
  | cons x xs ih => exact pairwise_insertLenDesc ih

theorem mem_sortLenDesc {y : JSString} {l : List JSString} :
    y ∈ sortLenDesc l ↔ y ∈ l := by
  induction l with
  | nil => simp [sortLenDesc]
  | cons x xs ih =>
    show y ∈ insertLenDesc x (sortLenDesc xs) ↔ _
    rw [mem_insertLenDesc, ih]
    exact (List.mem_cons).symm

/-- The first suffix found in a length-descending list is a longest one. -/
theorem firstSuffix_spec {lower k : JSString} {l : List JSString}
    (hp : l.Pairwise (fun a b => b.length ≤ a.length))
    (h : firstSuffix lower l = some k) :
    k ∈ l ∧ endsWith lower k = true ∧
      ∀ k' ∈ l, endsWith lower k' = true → k'.length ≤ k.length := by
  induction l with
  | nil => simp [firstSuffix] at h
  | cons x xs ih =>
    rcases List.pairwise_cons.mp hp with ⟨hx, hxs⟩
    by_cases he : endsWith lower x = true
    · have hk : k = x := by
        rw [firstSuffix, if_pos he] at h
        exact (Option.some_injective _ h).symm
      subst hk
      refine ⟨List.mem_cons_self _ _, he, ?_⟩
      intro k' hk' _
      rcases List.mem_cons.mp hk' with rfl | h'
      · exact le_refl _
      · exact hx k' h'
    · rw [firstSuffix, if_neg he] at h
      obtain ⟨hmem, hend, hmax⟩ := ih hxs h
      refine ⟨List.mem_cons_of_mem _ hmem, hend, ?_⟩
      intro k' hk' hek
      rcases List.mem_cons.mp hk' with rfl | hmem'
      · exact absurd hek he
      · exact hmax k' hmem' hek

/-- Every key of the snippet map has a defined property value. -/
theorem lookupKey_isSome_of_mem {m : List (JSString × Snippet)} {k : JSString}
    (h : k ∈ m.map (fun p => p.1)) : (lookupKey m k).isSome = true := by
  rcases List.mem_map.mp h with ⟨p, hp, rfl⟩
  have hfind : (m.find? (fun q => q.1 == p.1)).isSome = true :=
    List.find?_isSome.mpr ⟨p, hp, by simp⟩
  cases hf : m.find? (fun q => q.1 == p.1) with
  | none => rw [hf] at hfind; exact absurd hfind (by simp)
  | some q => simp [lookupKey, hf]

/-! Claim theorems. -/

/-- Claim C1: whenever `checkBufferMatch` returns a match against the index
built from a snippet collection, the matched key is a registered shortcut that
the lowercased buffer ends with, its length is the reported `matchLen`, the
reported snippet is that key's entry in the map, and no registered shortcut
that is a suffix of the lowercased buffer is longer — longest match wins. -/
theorem checkBufferMatch_longest (snippets : List Snippet) (buffer : JSString)
    (m : MatchInfo)
    (h : checkBufferMatch buffer (shortcutListOf snippets) (buildSnippetMap snippets)
          = some m) :
    ∃ k, k ∈ shortcutListOf snippets ∧ endsWith (toLowerStr buffer) k = true ∧
      k.length = m.matchLen ∧
      m.snippet = lookupKey (buildSnippetMap snippets) k ∧
      m.snippet.isSome = true ∧
      ∀ k' ∈ shortcutListOf snippets, endsWith (toLowerStr buffer) k' = true →
        k'.length ≤ m.matchLen := by
  unfold checkBufferMatch at h
  cases hfs : firstSuffix (toLowerStr buffer) (shortcutListOf snippets) with
  | none => rw [hfs] at h; exact absurd h (by simp)
  | some k =>
    rw [hfs] at h
    obtain ⟨hmem, hend, hmax⟩ := firstSuffix_spec (sortLenDesc_pairwise _) hfs
    have hm : ({ snippet := lookupKey (buildSnippetMap snippets) k,
                 matchLen := k.length } : MatchInfo) = m :=
      Option.some_injective _ h
    subst hm
    refine ⟨k, hmem, hend, rfl, rfl, ?_, ?_⟩
    · exact lookupKey_isSome_of_mem (mem_sortLenDesc.mp hmem)
    · exact hmax

/-- Witness for C1: with shortcuts dev1 and dev12, a buffer ending in dev12
matches dev12 (length 5), the longest registered suffix. -/
theorem checkBufferMatch_longest_witness :
    ∃ k, k ∈ shortcutListOf [⟨1, ['d','e','v','1'], ['o','n','e']⟩,
                             ⟨2, ['d','e','v','1','2'], ['t','w','o']⟩] ∧
      endsWith (toLowerStr ['x','x','d','e','v','1','2']) k = true ∧
      k.length = 5 ∧
      some (⟨2, ['d','e','v','1','2'], ['t','w','o']⟩ : Snippet)
        = lookupKey (buildSnippetMap [⟨1, ['d','e','v','1'], ['o','n','e']⟩,
                                      ⟨2, ['d','e','v','1','2'], ['t','w','o']⟩]) k ∧
      (some (⟨2, ['d','e','v','1','2'], ['t','w','o']⟩ : Snippet)).isSome = true ∧
      ∀ k' ∈ shortcutListOf [⟨1, ['d','e','v','1'], ['o','n','e']⟩,
                             ⟨2, ['d','e','v','1','2'], ['t','w','o']⟩],
        endsWith (toLowerStr ['x','x','d','e','v','1','2']) k' = true → k'.length ≤ 5 :=
  checkBufferMatch_longest
    [⟨1, ['d','e','v','1'], ['o','n','e']⟩, ⟨2, ['d','e','v','1','2'], ['t','w','o']⟩]
    ['x','x','d','e','v','1','2']
    ⟨some ⟨2, ['d','e','v','1','2'], ['t','w','o']⟩, 5⟩ (by decide)

/-- Claim C2 (code bug): `clipboard.writeText(expandedText)` in `runExpansion`
is outside every try/catch; when that write throws, `execFile` is never
reached, so the `expanding` flag — true on entry — is never reset, and the
exception propagates out of `runExpansion`.  Evaluated here at a concrete
failing input: clipboard holding text, a write failure, every other step
fine. -/
theorem runExpansion_writeFail_locks :
    (runExpansion ⟨false, false, true, false, false⟩ ⟨⟨[]⟩, ['x']⟩ 4 ['y'] true).expanding
        = true ∧
    (runExpansion ⟨false, false, true, false, false⟩ ⟨⟨[]⟩, ['x']⟩ 4 ['y'] true).threw
        = true := by
  decide

/-- Claim C3: while `expanding` is true the handler ignores the event
completely — the state (buffer included) is returned unchanged and no match is
dispatched; and whenever the handler does dispatch a match, the state it
returns (the one every subsequent event observes, the asynchronous expansion
included) already has `expanding = true` and an empty buffer. -/
theorem keydown_lock_guard (st : EngineState) (keycode : Nat) :
    (st.expanding = true → keydown st keycode = (st, none)) ∧
    (∀ st' m, keydown st keycode = (st', some m) →
      st'.expanding = true ∧ st'.buffer = []) := by
  constructor
  · intro h
    simp [keydown, h]
  · intro st' m h
    rw [keydown] at h
    split at h
    · exact Option.noConfusion (congrArg Prod.snd h)
    · split at h
      · exact Option.noConfusion (congrArg Prod.snd h)
      · split at h
        · split at h
          · exact Option.noConfusion (congrArg Prod.snd h)
          · exact Option.noConfusion (congrArg Prod.snd h)
        · split at h
          · injection h with h1 h2
            rw [← h1]
            exact ⟨rfl, rfl⟩
          · exact Option.noConfusion (congrArg Prod.snd h)

/-- Witness for C3: a locked state ignores a mapped key entirely. -/
theorem keydown_lock_guard_witness :
    ((⟨['a'], [], [], true, true⟩ : EngineState).expanding = true →
      keydown ⟨['a'], [], [], true, true⟩ 30 = (⟨['a'], [], [], true, true⟩, none)) ∧
    (∀ st' m, keydown ⟨['a'], [], [], true, true⟩ 30 = (st', some m) →
      st'.expanding = true ∧ st'.buffer = []) :=
  keydown_lock_guard ⟨['a'], [], [], true, true⟩ 30

/-- Claim C4: with every external call succeeding, an expansion restores the
clipboard: if the clipboard held text and no (non-empty) image, that exact
text is back after the settle delay and restore; if it held a non-empty image,
that image is back; and if the snapshot read failed (nothing captured), the
restore clears the clipboard. -/
theorem runExpansion_clipboard_roundtrip (clip : Clipboard) (deleteCount : Nat)
    (body : JSString) :
    (clip.img.isEmptyImg = true →
      (runExpansion ⟨false, false, false, false, false⟩ clip deleteCount body true).clip.text
          = clip.text ∧
      (runExpansion ⟨false, false, false, false, false⟩ clip deleteCount body true).expanding
          = false) ∧
    (clip.img.isEmptyImg = false →
      (runExpansion ⟨false, false, false, false, false⟩ clip deleteCount body true).clip.img
          = clip.img) ∧
    (runExpansion ⟨false, true, false, false, false⟩ clip deleteCount body true).clip
        = ⟨⟨[]⟩, []⟩ := by
  refine ⟨?_, ?_, ?_⟩
  · intro h
    simp [runExpansion, h, restoreClipboard, clipWriteText]
  · intro h
    simp [runExpansion, h, restoreClipboard, clipWriteImage, clipWriteText]
  · simp [runExpansion, restoreClipboard, clipClear, clipWriteText]

/-- Witness for C4: clipboard text "x" (no image), snippet body "y": after the
full expansion the clipboard holds "x" again and the lock is released. -/
theorem runExpansion_clipboard_roundtrip_witness :
    ((⟨⟨[]⟩, ['x']⟩ : Clipboard).img.isEmptyImg = true →
      (runExpansion ⟨false, false, false, false, false⟩ ⟨⟨[]⟩, ['x']⟩ 1 ['y'] true).clip.text
          = ['x'] ∧
      (runExpansion ⟨false, false, false, false, false⟩ ⟨⟨[]⟩, ['x']⟩ 1 ['y'] true).expanding
          = false) ∧
    ((⟨⟨[]⟩, ['x']⟩ : Clipboard).img.isEmptyImg = false →
      (runExpansion ⟨false, false, false, false, false⟩ ⟨⟨[]⟩, ['x']⟩ 1 ['y'] true).clip.img
          = ⟨[]⟩) ∧
    (runExpansion ⟨false, true, false, false, false⟩ ⟨⟨[]⟩, ['x']⟩ 1 ['y'] true).clip
        = ⟨⟨[]⟩, []⟩ :=
  runExpansion_clipboard_roundtrip ⟨⟨[]⟩, ['x']⟩ 1 ['y']

/-- The truncating append can never leave more than 50 characters. -/
theorem truncAppend_length_le (b : JSString) (c : Char) :
    (truncAppend b c).length ≤ 50 := by
  unfold truncAppend
  split
  · simp only [List.length_drop]
    omega
  · next h => omega

/-- One key event preserves the 50-character bound on the buffer. -/
theorem keydown_buffer_length_le (st : EngineState) (kc : Nat)
    (h : st.buffer.length ≤ 50) : ((keydown st kc).1).buffer.length ≤ 50 := by
  rw [keydown]
  split
  · exact h
  · split
    · show st.buffer.dropLast.length ≤ 50
      rw [List.length_dropLast]
      omega
    · split
      · split
        · show ([] : JSString).length ≤ 50
          simp
        · exact h
      · split
        · show ([] : JSString).length ≤ 50
          simp
        · exact truncAppend_length_le _ _

/-- Any serialized event sequence preserves the 50-character bound. -/
theorem processKeys_buffer_length_le (keycodes : List Nat) (st : EngineState)
    (h : st.buffer.length ≤ 50) : (processKeys st keycodes).buffer.length ≤ 50 := by
  induction keycodes generalizing st with
  | nil => exact h
  | cons k ks ih => exact ih _ (keydown_buffer_length_le _ _ h)

/-- Claim C5: an append that pushes the buffer past the 50-character cap
truncates it to a 30-character suffix of the appended buffer (its most recent
30 characters, silently), and consequently the buffer length stays at most 50
across every sequence of key events from any in-bound state. -/
theorem buffer_bounded (st : EngineState) (keycodes : List Nat) (b : JSString)
    (c : Char) (hover : (b ++ [c]).length > 50) (hst : st.buffer.length ≤ 50) :
    (truncAppend b c <:+ b ++ [c] ∧ (truncAppend b c).length = 30) ∧
    (processKeys st keycodes).buffer.length ≤ 50 := by
  refine ⟨⟨?_, ?_⟩, processKeys_buffer_length_le _ _ hst⟩
  · unfold truncAppend
    rw [if_pos hover]
    exact List.drop_suffix _ _
  · unfold truncAppend
    rw [if_pos hover]
    simp only [List.length_drop]
    omega

/-- Witness for C5: after 60 presses of the letter a on an engine with no
shortcuts, the buffer holds at most 50 characters, and a 51-character append
keeps only the most recent 30. -/
theorem buffer_bounded_witness :
    (truncAppend (List.replicate 50 'a') 'a' <:+ List.replicate 50 'a' ++ ['a'] ∧
      (truncAppend (List.replicate 50 'a') 'a').length = 30) ∧
    (processKeys ⟨[], [], [], false, true⟩ (List.replicate 60 30)).buffer.length ≤ 50 :=
  buffer_bounded ⟨[], [], [], false, true⟩ (List.replicate 60 30)
    (List.replicate 50 'a') 'a' (by decide) (by decide)

/-- Counterexample to C6 as stated: keycode 14 (backspace) maps to no
printable character and is not one of the boundary codes, yet the handler
mutates the buffer (it drops the last character) instead of leaving it
untouched. -/
theorem keydown_unmapped_counterexample :
    keycodeChar 14 = none ∧ BOUNDARY_CODES.contains 14 = false ∧
    (keydown ⟨['a'], [], [], false, true⟩ 14).1.buffer
      ≠ (⟨['a'], [], [], false, true⟩ : EngineState).buffer := by
  decide

/-- Claim C6 (amended): for every key event processed while the lock is free
whose keycode maps to no printable character and is not the backspace code:
a boundary code (space, enter, tab, escape) clears the buffer to empty, any
other such code leaves the state untouched, and neither case dispatches a
match. -/
theorem keydown_unmapped (st : EngineState) (keycode : Nat)
    (hexp : st.expanding = false) (hmap : keycodeChar keycode = none)
    (hbs : keycode ≠ BACKSPACE) :
    (BOUNDARY_CODES.contains keycode = true →
      keydown st keycode = ({ st with buffer := [] }, none)) ∧
    (BOUNDARY_CODES.contains keycode = false →
      keydown st keycode = (st, none)) := by
  have hbs' : (BACKSPACE == keycode) = false := beq_eq_false_iff_ne.mpr (Ne.symm hbs)
  constructor
  · intro hbd
    have hbd' : keycode ∈ BOUNDARY_CODES := by simpa using hbd
    simp [keydown, hexp, hbs', hmap, hbd']
  · intro hbd
    have hbd' : keycode ∉ BOUNDARY_CODES := by simpa using hbd
    simp [keydown, hexp, hbs', hmap, hbd']

/-- Witness for C6 (amended): the space keycode 57 clears a nonempty buffer,
and keycode 200 (no mapping, not a boundary code) is a no-op. -/
theorem keydown_unmapped_witness :
    (BOUNDARY_CODES.contains 57 = true →
      keydown ⟨['a'], [], [], false, true⟩ 57
        = ({ (⟨['a'], [], [], false, true⟩ : EngineState) with buffer := [] }, none)) ∧
    (BOUNDARY_CODES.contains 57 = false →
      keydown ⟨['a'], [], [], false, true⟩ 57 = (⟨['a'], [], [], false, true⟩, none)) :=
  keydown_unmapped ⟨['a'], [], [], false, true⟩ 57 rfl (by decide) (by decide)

/-- Claim C7: a backspace event drops exactly the last character of the buffer
(a no-op when the buffer is empty) and dispatches no match; a match can only
be dispatched by an event whose keycode maps to a printable character — never
by a backspace or by a boundary clear. -/
theorem keydown_backspace (st : EngineState) (keycode : Nat) (c : Char)
    (hexp : st.expanding = false) :
    keydown st BACKSPACE = ({ st with buffer := st.buffer.dropLast }, none) ∧
    (st.buffer = [] → keydown st BACKSPACE = (st, none)) ∧
    (keycodeChar keycode = some c →
      (keydown st keycode).2
        = checkBufferMatch (truncAppend st.buffer c) st.shortcutList st.snippetMap) ∧
    (∀ st' m, keydown st keycode = (st', some m) →
      keycode ≠ BACKSPACE ∧ (keycodeChar keycode).isSome = true) := by
  have h1 : keydown st BACKSPACE = ({ st with buffer := st.buffer.dropLast }, none) := by
    simp [keydown, hexp]
  refine ⟨h1, ?_, ?_, ?_⟩
  · intro hb
    rw [h1, hb]
    cases st with
    | mk buffer snippetMap shortcutList expanding active =>
      simp at hb
      simp [hb]
  · intro hkc
    have hbs : (BACKSPACE == keycode) = false := by
      rcases eq_or_ne keycode BACKSPACE with hk | hk
      · subst hk
        rw [show keycodeChar BACKSPACE = none from rfl] at hkc
        exact Option.noConfusion hkc
      · exact beq_eq_false_iff_ne.mpr (Ne.symm hk)
    rw [keydown]
    simp only [hexp, Bool.false_eq_true, if_false, hbs, hkc]
    split <;> (rename_i hm; exact hm.symm)
  · intro st' m h
    by_cases hbs : keycode = BACKSPACE
    · subst hbs
      rw [h1] at h
      exact Option.noConfusion (congrArg Prod.snd h)
    · refine ⟨hbs, ?_⟩
      have hbs' : (BACKSPACE == keycode) = false := beq_eq_false_iff_ne.mpr (Ne.symm hbs)
      cases hc : keycodeChar keycode with
      | some c => rfl
      | none =>
        have h2 : (keydown st keycode).2 = none := by
          rw [keydown]
          simp only [hexp, Bool.false_eq_true, if_false, hbs', hc]
          split <;> rfl
        rw [h] at h2
        exact Option.noConfusion h2

/-- Witness for C7: backspace on buffer "ab" leaves "a", backspace on the
empty buffer is a no-op, and a match is only ever dispatched for a mapped
printable keycode. -/
theorem keydown_backspace_witness :
    keydown ⟨['a', 'b'], [], [], false, true⟩ BACKSPACE
      = ({ (⟨['a', 'b'], [], [], false, true⟩ : EngineState) with
            buffer := (['a', 'b'] : JSString).dropLast }, none) ∧
    ((['a', 'b'] : JSString) = [] →
      keydown ⟨['a', 'b'], [], [], false, true⟩ BACKSPACE
        = (⟨['a', 'b'], [], [], false, true⟩, none)) ∧
    (keycodeChar 30 = some 'a' →
      (keydown ⟨['a', 'b'], [], [], false, true⟩ 30).2
        = checkBufferMatch (truncAppend ['a', 'b'] 'a') [] []) ∧
    (∀ st' m, keydown ⟨['a', 'b'], [], [], false, true⟩ 30 = (st', some m) →
      (30 : Nat) ≠ BACKSPACE ∧ (keycodeChar 30).isSome = true) :=
  keydown_backspace ⟨['a', 'b'], [], [], false, true⟩ 30 'a' rfl

/-- Claim C8: `updateSnippets` replaces exactly the shortcut index — the
snippet map and its length-descending key list — and leaves the buffer, the
`expanding` flag and the activity flag unchanged; and calling
`startKeyListener` while the listener is already active performs exactly
`updateSnippets` and returns. -/
theorem updateSnippets_frame (st : EngineState) (snippets : List Snippet)
    (hookOk : Bool) :
    ((updateSnippets st snippets).buffer = st.buffer ∧
     (updateSnippets st snippets).expanding = st.expanding ∧
     (updateSnippets st snippets).active = st.active ∧
     (updateSnippets st snippets).snippetMap = buildSnippetMap snippets ∧
     (updateSnippets st snippets).shortcutList = shortcutListOf snippets) ∧
    (st.active = true →
      startKeyListener st snippets hookOk = updateSnippets st snippets) := by
  refine ⟨⟨rfl, rfl, rfl, rfl, rfl⟩, ?_⟩
  intro h
  rw [startKeyListener, if_pos h]

/-- Witness for C8: on an active engine holding buffer "a" and a held lock,
swapping in one snippet touches only the index, and `startKeyListener` is
exactly `updateSnippets`. -/
theorem updateSnippets_frame_witness :
    ((updateSnippets ⟨['a'], [], [], true, true⟩ [⟨7, ['h','i'], ['h','e','y']⟩]).buffer
        = (⟨['a'], [], [], true, true⟩ : EngineState).buffer ∧
     (updateSnippets ⟨['a'], [], [], true, true⟩ [⟨7, ['h','i'], ['h','e','y']⟩]).expanding
        = (⟨['a'], [], [], true, true⟩ : EngineState).expanding ∧
     (updateSnippets ⟨['a'], [], [], true, true⟩ [⟨7, ['h','i'], ['h','e','y']⟩]).active
        = (⟨['a'], [], [], true, true⟩ : EngineState).active ∧
     (updateSnippets ⟨['a'], [], [], true, true⟩ [⟨7, ['h','i'], ['h','e','y']⟩]).snippetMap
        = buildSnippetMap [⟨7, ['h','i'], ['h','e','y']⟩] ∧
     (updateSnippets ⟨['a'], [], [], true, true⟩ [⟨7, ['h','i'], ['h','e','y']⟩]).shortcutList
        = shortcutListOf [⟨7, ['h','i'], ['h','e','y']⟩]) ∧
    ((⟨['a'], [], [], true, true⟩ : EngineState).active = true →
      startKeyListener ⟨['a'], [], [], true, true⟩ [⟨7, ['h','i'], ['h','e','y']⟩] false
        = updateSnippets ⟨['a'], [], [], true, true⟩ [⟨7, ['h','i'], ['h','e','y']⟩]) :=
  updateSnippets_frame ⟨['a'], [], [], true, true⟩ [⟨7, ['h','i'], ['h','e','y']⟩] false

/-- Rows whose id differs from the reported one are untouched by the bump. -/
theorem map_bump_of_ne {i : Nat} {l : List DbRow} (h : ∀ x ∈ l, x.id ≠ i) :
    l.map (fun r => if r.id == i
      then { r with usage_count := r.usage_count + 1 } else r) = l := by
  induction l with
  | nil => rfl
  | cons x xs ih =>
    have hx : (x.id == i) = false :=
      beq_eq_false_iff_ne.mpr (h x (List.mem_cons_self _ _))
    simp only [List.map_cons, hx, Bool.false_eq_true, if_false,
      ih (fun y hy => h y (List.mem_cons_of_mem _ hy))]

/-- `find?` skips a block of rows whose id all differ from the target. -/
theorem find?_id_append {i : Nat} {l l2 : List DbRow} (h : ∀ x ∈ l, x.id ≠ i) :
    (l ++ l2).find? (fun r => r.id == i) = l2.find? (fun r => r.id == i) := by
  induction l with
  | nil => rfl
  | cons x xs ih =>
    have hx : (x.id == i) = false :=
      beq_eq_false_iff_ne.mpr (h x (List.mem_cons_self _ _))
    simp only [List.cons_append, List.find?, hx]
    exact ih (fun y hy => h y (List.mem_cons_of_mem _ hy))

/-- Claim C9: on a database in which exactly one snippet row carries the
reported identifier, the usage report increments that row's `usage_count` by
one, leaves every other row unchanged, and appends exactly one expansion-log
record carrying the shortcut text and the character counts of the shortcut
and of the expansion body; and a failing report inside the dispatch is
swallowed — the database is untouched, the engine ends unlocked and no
exception escapes. -/
theorem incrementUsage_spec (pre post : List DbRow) (r : DbRow) (log : List LogRow)
    (i : Nat) (env : ExpEnv) (clip : Clipboard) (db2 : Db) (deleteCount : Nat)
    (s : Snippet)
    (hid : r.id = i) (hpre : ∀ x ∈ pre, x.id ≠ i) (hpost : ∀ x ∈ post, x.id ≠ i)
    (hw : env.writeFails = false) :
    (incrementUsage ⟨pre ++ r :: post, log⟩ i).snippets
        = pre ++ { r with usage_count := r.usage_count + 1 } :: post ∧
    (incrementUsage ⟨pre ++ r :: post, log⟩ i).expansion_log
        = log ++ [⟨i, r.shortcut, r.body.length, r.shortcut.length⟩] ∧
    (dispatchExpansion env true clip db2 deleteCount s).db = db2 ∧
    (dispatchExpansion env true clip db2 deleteCount s).expanding = false ∧
    (dispatchExpansion env true clip db2 deleteCount s).threw = false := by
  have hrid : (r.id == i) = true := beq_iff_eq.mpr hid
  have hmap : (pre ++ r :: post).map (fun x => if x.id == i
      then { x with usage_count := x.usage_count + 1 } else x)
      = pre ++ { r with usage_count := r.usage_count + 1 } :: post := by
    rw [List.map_append, List.map_cons, map_bump_of_ne hpre, map_bump_of_ne hpost, hrid]
    rfl
  have hfind : (pre ++ { r with usage_count := r.usage_count + 1 } :: post).find?
      (fun x => x.id == i) = some { r with usage_count := r.usage_count + 1 } := by
    rw [find?_id_append hpre]
    simp only [List.find?]
    rw [show ({ r with usage_count := r.usage_count + 1 } : DbRow).id == i from hrid]
  refine ⟨?_, ?_, ?_, ?_, ?_⟩
  · show (incrementUsage ⟨pre ++ r :: post, log⟩ i).snippets = _
    rw [incrementUsage]
    simp only [hmap, hfind]
  · show (incrementUsage ⟨pre ++ r :: post, log⟩ i).expansion_log = _
    rw [incrementUsage]
    simp only [hmap, hfind]
  · simp [dispatchExpansion, runExpansion, hw]
  · simp [dispatchExpansion, runExpansion, hw]
  · simp [dispatchExpansion, runExpansion, hw]

/-- Witness for C9: one-row database, snippet 3 with shortcut "hi" and body
"hey there" (9 characters): counter goes 4 to 5, one log row (3, "hi", 9, 2)
is appended; a failing report leaves an unrelated database untouched and the
engine unlocked. -/
theorem incrementUsage_spec_witness :
    (incrementUsage ⟨[] ++ (⟨3, ['h','i'], ['h','e','y',' ','t','h','e','r','e'], 4⟩ : DbRow) :: [], []⟩ 3).snippets
        = [] ++ ({ (⟨3, ['h','i'], ['h','e','y',' ','t','h','e','r','e'], 4⟩ : DbRow) with
            usage_count := 4 + 1 } : DbRow) :: [] ∧
    (incrementUsage ⟨[] ++ (⟨3, ['h','i'], ['h','e','y',' ','t','h','e','r','e'], 4⟩ : DbRow) :: [], []⟩ 3).expansion_log
        = [] ++ [⟨3, ['h','i'], (['h','e','y',' ','t','h','e','r','e'] : JSString).length,
                 (['h','i'] : JSString).length⟩] ∧
    (dispatchExpansion ⟨false, false, false, false, false⟩ true ⟨⟨[]⟩, ['x']⟩
        ⟨[], []⟩ 2 ⟨3, ['h','i'], ['h','e','y']⟩).db = ⟨[], []⟩ ∧
    (dispatchExpansion ⟨false, false, false, false, false⟩ true ⟨⟨[]⟩, ['x']⟩
        ⟨[], []⟩ 2 ⟨3, ['h','i'], ['h','e','y']⟩).expanding = false ∧
    (dispatchExpansion ⟨false, false, false, false, false⟩ true ⟨⟨[]⟩, ['x']⟩
        ⟨[], []⟩ 2 ⟨3, ['h','i'], ['h','e','y']⟩).threw = false :=
  incrementUsage_spec [] [] ⟨3, ['h','i'], ['h','e','y',' ','t','h','e','r','e'], 4⟩ []
    3 ⟨false, false, false, false, false⟩ ⟨⟨[]⟩, ['x']⟩ ⟨[], []⟩ 2
    ⟨3, ['h','i'], ['h','e','y']⟩ rfl (by simp) (by simp) rfl

/-- Characters produced by the keycode table are from its printable set. -/
theorem keycodeChar_mem_printable {kc : Nat} {c : Char}
    (h : keycodeChar kc = some c) : c ∈ printableChars := by
  unfold keycodeChar at h
  cases hf : KEYCODE_MAP.find? (fun p => p.1 == kc) with
  | none => rw [hf] at h; exact absurd h (by simp)
  | some p =>
    rw [hf] at h
    have hp2 : p.2 = c := by simpa using h
    rw [← hp2]
    exact List.mem_map.mpr ⟨p, List.mem_of_find?_eq_some hf, rfl⟩

/-- Membership in a truncating append comes from the appended buffer. -/
theorem mem_of_mem_truncAppend {a c : Char} {b : JSString}
    (h : a ∈ truncAppend b c) : a ∈ b ++ [c] := by
  unfold truncAppend at h
  split at h
  · exact List.mem_of_mem_drop h
  · exact h

/-- One key event keeps every buffer character inside the printable set. -/
theorem keydown_buffer_printable (st : EngineState) (kc : Nat)
    (h : ∀ a ∈ st.buffer, a ∈ printableChars) :
    ∀ a ∈ ((keydown st kc).1).buffer, a ∈ printableChars := by
  rw [keydown]
  split
  · exact h
  · split
    · show ∀ a ∈ st.buffer.dropLast, a ∈ printableChars
      intro a ha
      exact h a (List.Sublist.mem ha (List.dropLast_sublist _))
    · split
      · split
        · intro a ha
          simp at ha
        · exact h
      · rename_i c heq
        split
        · intro a ha
          simp at ha
        · intro a ha
          rcases List.mem_append.mp (mem_of_mem_truncAppend ha) with h1 | h2
          · exact h a h1
          · rw [show a = c from by simpa using h2]
            exact keycodeChar_mem_printable heq

/-- Any serialized event sequence keeps the buffer inside the printable set. -/
theorem processKeys_buffer_printable (keycodes : List Nat) (st : EngineState)
    (h : ∀ a ∈ st.buffer, a ∈ printableChars) :
    ∀ a ∈ (processKeys st keycodes).buffer, a ∈ printableChars := by
  induction keycodes generalizing st with
  | nil => exact h
  | cons k ks ih => exact ih _ (keydown_buffer_printable _ _ h)

/-- Claim C10: the keycode table only ever produces one of its 46 printable
characters (lowercase letters, digits, and the ten symbols), so from any state
whose buffer holds only such characters — in particular from engine start,
where the buffer is empty — after any event sequence the buffer still holds
only such characters, holds no uppercase character, and lowercasing it at
match time is the identity.  The handler consumes only the event's keycode, so
a held Shift cannot change which character is stored. -/
theorem buffer_chars_printable (keycodes : List Nat) (st : EngineState)
    (kc : Nat) (c : Char)
    (hst : ∀ a ∈ st.buffer, a ∈ printableChars)
    (hkc : keycodeChar kc = some c) :
    c ∈ printableChars ∧
    printableChars.length = 46 ∧
    (∀ a ∈ (processKeys st keycodes).buffer, a ∈ printableChars) ∧
    (∀ a ∈ (processKeys st keycodes).buffer, a.isUpper = false) ∧
    toLowerStr (processKeys st keycodes).buffer = (processKeys st keycodes).buffer := by
  have hsub := processKeys_buffer_printable keycodes st hst
  have hlow : ∀ x ∈ printableChars, Char.toLower x = x := by decide
  have hup : ∀ x ∈ printableChars, x.isUpper = false := by decide
  refine ⟨keycodeChar_mem_printable hkc, by decide, hsub, ?_, ?_⟩
  · intro a ha
    exact hup a (hsub a ha)
  · have hmap : (processKeys st keycodes).buffer.map Char.toLower
        = (processKeys st keycodes).buffer.map id :=
      List.map_congr_left (fun a ha => hlow a (hsub a ha))
    rw [toLowerStr, hmap, List.map_id]

/-- Witness for C10: keycode 30 produces the letter a; two presses (letter a,
digit 1) from an empty buffer leave a buffer of printable lowercase
characters that lowercasing fixes. -/
theorem buffer_chars_printable_witness :
    'a' ∈ printableChars ∧
    printableChars.length = 46 ∧
    (∀ a ∈ (processKeys ⟨[], [], [], false, true⟩ [30, 2]).buffer, a ∈ printableChars) ∧
    (∀ a ∈ (processKeys ⟨[], [], [], false, true⟩ [30, 2]).buffer, a.isUpper = false) ∧
    toLowerStr (processKeys ⟨[], [], [], false, true⟩ [30, 2]).buffer
      = (processKeys ⟨[], [], [], false, true⟩ [30, 2]).buffer :=
  buffer_chars_printable [30, 2] ⟨[], [], [], false, true⟩ 30 'a'
    (by simp) (by decide)

end SnapCut
